import Mathlib

/-!
Verification of the submission evaluation and ranking engine of the
datathon scoring backend.

The definitions below are shallow embeddings of the JavaScript source:
  * `computeMetrics`, `compareCSVData` embed `backend/utils/metrics.js`;
  * `previewOf`, `effectiveUploadLimit`, `uploadPipeline` embed the
    evaluation steps of `router.post` in `backend/routes/submissions.js`
    (file transport and CSV tokenizing are outside the engine, so the
    pipeline starts from the normalized row list);
  * `leaderboardPipeline` embeds the aggregation pipeline of
    `backend/routes/leaderboard.js`, with the MongoDB sort stage modelled
    as a stable sort (`List.insertionSort`) and the group stage as
    first-occurrence grouping;
  * `raceStep`/`raceRun` embed the interleaving of two concurrent upload
    requests around the count-read and save operations.

JavaScript numbers are modelled as exact rationals; the `toFixed(6)`
rounding applied to all returned metrics is modelled by `round6`.
-/

namespace Datathon

/-- A normalized CSV record: trimmed `row_id` and `label` strings. -/
structure Row where
  row_id : String
  label : String
deriving DecidableEq

/-- One joined comparison triple as built by `compareCSVData`. -/
structure Comparison where
  row_id : String
  predicted : String
  actual : String
  matchFlag : Bool
deriving DecidableEq

/-- The metrics object returned by `computeMetrics`. -/
structure Metrics where
  accuracy : ℚ
  precision : ℚ
  recallScore : ℚ
  f1 : ℚ
  matchCount : Nat
deriving DecidableEq

/-- Model of `parseFloat(x.toFixed(6))`: round to six decimal digits,
halves away from zero (the inputs here are nonnegative). -/
def round6 (q : ℚ) : ℚ := ((⌊q * 1000000 + 1 / 2⌋ : ℤ) : ℚ) / 1000000

/-- Model of `Set.prototype.add`: append if not already present
(JavaScript sets preserve insertion order). -/
def insertLabel (s : List String) (x : String) : List String :=
  if x ∈ s then s else s ++ [x]

/-- The label universe of `computeMetrics`: all distinct predicted and
actual values, in first-insertion order. -/
def allLabels (predictions : List Comparison) : List String :=
  predictions.foldl (fun s p => insertLabel (insertLabel s p.predicted) p.actual) []

/-- True positives for a class. -/
def classTP (predictions : List Comparison) (label : String) : Nat :=
  (predictions.filter (fun p => p.predicted == label && p.actual == label)).length

/-- False positives for a class. -/
def classFP (predictions : List Comparison) (label : String) : Nat :=
  (predictions.filter (fun p => p.predicted == label && !(p.actual == label))).length

/-- False negatives for a class. -/
def classFN (predictions : List Comparison) (label : String) : Nat :=
  (predictions.filter (fun p => !(p.predicted == label) && p.actual == label)).length

/-- Per-class precisions, in label-universe order. -/
def precisionsOf (predictions : List Comparison) : List ℚ :=
  (allLabels predictions).map (fun label =>
    if 0 < classTP predictions label + classFP predictions label then
      (classTP predictions label : ℚ) /
        ((classTP predictions label : ℚ) + (classFP predictions label : ℚ))
    else 0)

/-- Per-class recalls, in label-universe order. -/
def recallsOf (predictions : List Comparison) : List ℚ :=
  (allLabels predictions).map (fun label =>
    if 0 < classTP predictions label + classFN predictions label then
      (classTP predictions label : ℚ) /
        ((classTP predictions label : ℚ) + (classFN predictions label : ℚ))
    else 0)

/-- Macro-averaged precision. -/
def avgPrecision (predictions : List Comparison) : ℚ :=
  (precisionsOf predictions).sum / ((precisionsOf predictions).length : ℚ)

/-- Macro-averaged recall. -/
def avgRecall (predictions : List Comparison) : ℚ :=
  (recallsOf predictions).sum / ((recallsOf predictions).length : ℚ)

/-- Embedding of `computeMetrics` from `backend/utils/metrics.js`. -/
def computeMetrics (predictions : List Comparison) : Metrics :=
  if predictions.length = 0 then
    { accuracy := 0, precision := 0, recallScore := 0, f1 := 0, matchCount := 0 }
  else
    let total := predictions.length
    let matchCount := predictions.countP (fun p => p.predicted == p.actual)
    let accuracy : ℚ := (matchCount : ℚ) / (total : ℚ)
    let avgP := avgPrecision predictions
    let avgR := avgRecall predictions
    let f1 : ℚ := if 0 < avgP + avgR then 2 * (avgP * avgR) / (avgP + avgR) else 0
    { accuracy := round6 accuracy, precision := round6 avgP, recallScore := round6 avgR,
      f1 := round6 f1, matchCount := matchCount }

/-- The JavaScript function also accepts a null or undefined argument
(the guard reads `if (!predictions || predictions.length === 0)`);
absence is modelled by `Option`. -/
def computeMetricsNullable (predictions : Option (List Comparison)) : Metrics :=
  match predictions with
  | none => { accuracy := 0, precision := 0, recallScore := 0, f1 := 0, matchCount := 0 }
  | some l => computeMetrics l

/-- Model of the `Map` built by repeated `map.set(row.row_id, row.label)`:
later writes overwrite earlier ones. -/
def buildMap (rows : List Row) : String → Option String :=
  rows.foldl (fun m r => fun k => if k = r.row_id then some r.label else m k)
    (fun _ => none)

/-- The label of the last occurrence, in submission order, of an
identifier in a row list. -/
def lastLabel (rows : List Row) (k : String) : Option String :=
  (rows.reverse.find? (fun r => r.row_id == k)).map Row.label

/-- The comparison triple emitted for one canonical row, joining against
the last occurrence of its identifier in the submission. -/
def lastJoin (user : List Row) (a : Row) : Option Comparison :=
  match lastLabel user a.row_id with
  | some predicted => some ⟨a.row_id, predicted, a.label, predicted == a.label⟩
  | none => none

/-- Result record of `compareCSVData`. -/
structure CompareResult where
  comparisons : List Comparison
  metrics : Metrics
  rowsInCanonical : Nat
  rowsInSubmission : Nat
  rowsCompared : Nat
  missingRows : Nat
  extraRows : Nat
  missingRowIds : List String
  extraRowIds : List String
deriving DecidableEq

/-- Embedding of `compareCSVData` from `backend/utils/metrics.js`. -/
def compareCSVData (userCSVData answerCSVData : List Row) : CompareResult :=
  let answerMap := buildMap answerCSVData
  let userMap := buildMap userCSVData
  let comparisons := answerCSVData.filterMap (fun answerRow =>
    match userMap answerRow.row_id with
    | some predicted =>
        some { row_id := answerRow.row_id, predicted := predicted,
               actual := answerRow.label, matchFlag := predicted == answerRow.label }
    | none => none)
  let missingInUser := answerCSVData.filterMap (fun answerRow =>
    if (userMap answerRow.row_id).isSome then none else some answerRow.row_id)
  let extraInUser := userCSVData.filterMap (fun userRow =>
    if (answerMap userRow.row_id).isSome then none else some userRow.row_id)
  { comparisons := comparisons
    metrics := computeMetrics comparisons
    rowsInCanonical := answerCSVData.length
    rowsInSubmission := userCSVData.length
    rowsCompared := comparisons.length
    missingRows := missingInUser.length
    extraRows := extraInUser.length
    missingRowIds := missingInUser.take 10
    extraRowIds := extraInUser.take 10 }

/-- Error kinds surfaced by the upload route before persistence. -/
inductive UploadError where
  | notConfigured
  | quotaExceeded
  | emptyCSV
deriving DecidableEq

/-- The Submission document persisted by the upload route (identity and
timestamp fields, handled by external collaborators, are omitted). -/
structure SubmissionRec where
  rowsTotal : Nat
  matchCount : Nat
  accuracy : ℚ
  precision : ℚ
  recallScore : ℚ
  f1 : ℚ
  fileDataPreview : List Comparison
  attemptNumber : Nat
  rowsInCanonical : Nat
  rowsInSubmission : Nat
  rowsCompared : Nat
  extraRows : Nat
  missingRows : Nat
deriving DecidableEq

/-- Preview construction from `routes/submissions.js`: fifteen mismatches,
then five matches, truncated to twenty entries. -/
def previewOf (comparisons : List Comparison) : List Comparison :=
  ((comparisons.filter (fun c => !c.matchFlag)).take 15 ++
    (comparisons.filter (fun c => c.matchFlag)).take 5).take 20

/-- Quota resolution of `routes/submissions.js`: the user-specific limit
when it is set, else the configured global default, else fifteen. -/
def effectiveUploadLimit (userLimit configLimit : Option Nat) : Nat :=
  match userLimit with
  | some l => l
  | none =>
    match configLimit with
    | some v => v
    | none => 15

/-- Embedding of the evaluation steps of `router.post` in
`routes/submissions.js`, starting from the normalized row list: canonical
set check, quota check, empty check, comparison, attempt numbering,
preview, and the persisted record returned on success. -/
def uploadPipeline (answer : Option (List Row)) (userSubmissionCount : Nat)
    (userLimit configLimit : Option Nat) (userCSVData : List Row) :
    Except UploadError SubmissionRec :=
  match answer with
  | none => .error .notConfigured
  | some answerData =>
    let uploadLimit := effectiveUploadLimit userLimit configLimit
    if uploadLimit ≤ userSubmissionCount then .error .quotaExceeded
    else if userCSVData.length = 0 then .error .emptyCSV
    else
      let comparisonResult := compareCSVData userCSVData answerData
      let attemptNumber := userSubmissionCount + 1
      let preview := previewOf comparisonResult.comparisons
      .ok { rowsTotal := comparisonResult.rowsCompared
            matchCount := comparisonResult.metrics.matchCount
            accuracy := comparisonResult.metrics.accuracy
            precision := comparisonResult.metrics.precision
            recallScore := comparisonResult.metrics.recallScore
            f1 := comparisonResult.metrics.f1
            fileDataPreview := preview
            attemptNumber := attemptNumber
            rowsInCanonical := comparisonResult.rowsInCanonical
            rowsInSubmission := comparisonResult.rowsInSubmission
            rowsCompared := comparisonResult.rowsCompared
            extraRows := comparisonResult.extraRows
            missingRows := comparisonResult.missingRows }

/-- State of two concurrent upload requests of one participant: the
persisted-document count, the count value each request has read (the
local `userSubmissionCount` variable), and the attempt numbers persisted
so far. -/
structure RaceState where
  count : Nat
  read1 : Option Nat
  read2 : Option Nat
  persisted : List Nat
deriving DecidableEq

/-- Interleaving events: each request reads the count, then saves. -/
inductive RaceEv where
  | read1
  | read2
  | save1
  | save2
deriving DecidableEq

/-- One step of the interleaved execution: a read captures the current
count, a save persists `readCount + 1` as the attempt number, exactly as
`attemptNumber = userSubmissionCount + 1` does. -/
def raceStep (s : RaceState) : RaceEv → RaceState
  | .read1 => { s with read1 := some s.count }
  | .read2 => { s with read2 := some s.count }
  | .save1 =>
    match s.read1 with
    | some c => { s with persisted := s.persisted ++ [c + 1], count := s.count + 1 }
    | none => s
  | .save2 =>
    match s.read2 with
    | some c => { s with persisted := s.persisted ++ [c + 1], count := s.count + 1 }
    | none => s

/-- Run a schedule of interleaved events. -/
def raceRun (s : RaceState) (evs : List RaceEv) : RaceState :=
  evs.foldl raceStep s

/-- Initial state with `n` already-persisted submissions. -/
def raceInit (n : Nat) : RaceState :=
  { count := n, read1 := none, read2 := none, persisted := [] }

/-- One persisted submission as read by the leaderboard aggregation (the
fields its sort and group stages use). -/
structure Subm where
  userId : Nat
  accuracy : ℚ
  f1 : ℚ
  attemptNumber : Nat
deriving DecidableEq

/-- The sort-stage key order of the aggregation (`accuracy: -1, f1: -1`):
`subSortLe a b` holds when `a` may be placed no later than `b`. -/
def subSortLe (a b : Subm) : Prop :=
  b.accuracy < a.accuracy ∨ (a.accuracy = b.accuracy ∧ b.f1 ≤ a.f1)

/-- Strictly earlier under the sort-stage key. -/
def subSortLt (a b : Subm) : Prop :=
  b.accuracy < a.accuracy ∨ (a.accuracy = b.accuracy ∧ b.f1 < a.f1)

/-- The full ordering of the specification: accuracy descending, then f1
descending, remaining ties broken by earliest attempt number. -/
def fullLt (a b : Subm) : Prop :=
  subSortLt a b ∨
    (a.accuracy = b.accuracy ∧ a.f1 = b.f1 ∧ a.attemptNumber < b.attemptNumber)

/-- Reflexive closure of the full specification ordering. -/
def fullLe (a b : Subm) : Prop :=
  subSortLt a b ∨
    (a.accuracy = b.accuracy ∧ a.f1 = b.f1 ∧ a.attemptNumber ≤ b.attemptNumber)

instance : DecidableRel subSortLe := fun a b => by
  unfold subSortLe
  infer_instance

instance : DecidableRel subSortLt := fun a b => by
  unfold subSortLt
  infer_instance

instance : DecidableRel fullLt := fun a b => by
  unfold fullLt subSortLt
  infer_instance

instance : DecidableRel fullLe := fun a b => by
  unfold fullLe subSortLt
  infer_instance

instance : IsTotal Subm subSortLe :=
  ⟨fun a b => by
    unfold subSortLe
    rcases lt_trichotomy a.accuracy b.accuracy with h | h | h
    · right
      left
      exact h
    · rcases le_total b.f1 a.f1 with hf | hf
      · left
        right
        exact ⟨h, hf⟩
      · right
        right
        exact ⟨h.symm, hf⟩
    · left
      left
      exact h⟩

instance : IsTrans Subm subSortLe :=
  ⟨fun a b c hab hbc => by
    unfold subSortLe at *
    rcases hab with h1 | ⟨h1, h1f⟩ <;> rcases hbc with h2 | ⟨h2, h2f⟩
    · left
      exact lt_trans h2 h1
    · left
      rw [← h2]
      exact h1
    · left
      rw [h1]
      exact h2
    · right
      exact ⟨h1.trans h2, le_trans h2f h1f⟩⟩

/-- First record per participant in stream order, with the set of
already-seen participants accumulated. -/
def groupFirstGo (seen : List Nat) : List Subm → List Subm
  | [] => []
  | x :: xs =>
    if x.userId ∈ seen then groupFirstGo seen xs
    else x :: groupFirstGo (x.userId :: seen) xs

/-- Model of the aggregation group stage keyed on `userId`: every output
field is taken with `$first` from the sorted stream, so each participant
contributes the first of their records in stream order. -/
def groupFirst (l : List Subm) : List Subm := groupFirstGo [] l

/-- Model of the leaderboard route: stable sort by (accuracy descending,
f1 descending), group to each participant's first record, sort the
grouped records by the same key, truncate to the limit, and attach
1-based ranks (`rank: index + 1`). -/
def leaderboardPipeline (subs : List Subm) (limit : Nat) : List (Nat × Subm) :=
  let sorted := List.insertionSort subSortLe subs
  let grouped := groupFirst sorted
  let ranked := List.insertionSort subSortLe grouped
  (ranked.take limit).enum.map (fun pr => (pr.1 + 1, pr.2))

/-- The record selected when folding the list from the right, keeping a
satisfying record and preferring an earlier record whenever it sorts no
later; this is what a stable sort followed by a first-match lookup
computes. -/
def firstBest (p : Subm → Bool) : List Subm → Option Subm
  | [] => none
  | x :: xs =>
    match firstBest p xs with
    | none => if p x then some x else none
    | some y => if p x then (if subSortLe x y then some x else some y) else some y

/-- Well-formedness of a persisted submission list: any two submissions
of one participant appear in increasing attempt-number order (the order
the upload route persists them in). -/
def attemptsOrdered (l : List Subm) : Prop :=
  l.Pairwise (fun a b => a.userId = b.userId → a.attemptNumber < b.attemptNumber)

end Datathon

namespace Datathon

/-- C10: `computeMetrics` is total at its interface: on an empty list, or
on an absent argument, it returns the fixed all-zero metrics record. -/
theorem computeMetrics_empty_total :
    computeMetrics [] =
      { accuracy := 0, precision := 0, recallScore := 0, f1 := 0, matchCount := 0 } ∧
    computeMetricsNullable none =
      { accuracy := 0, precision := 0, recallScore := 0, f1 := 0, matchCount := 0 } :=
  ⟨rfl, rfl⟩

/-- C8: the preview is exactly the first (up to) fifteen mismatching
triples in comparison order followed by the first (up to) five matching
triples in comparison order, and it never exceeds twenty entries: the
final truncation to twenty is redundant. -/
theorem previewOf_eq_mismatches_then_matches (comparisons : List Comparison) :
    previewOf comparisons =
      (comparisons.filter (fun c => !c.matchFlag)).take 15 ++
        (comparisons.filter (fun c => c.matchFlag)).take 5 ∧
    (previewOf comparisons).length ≤ 20 := by
  have h1 : ((comparisons.filter (fun c => !c.matchFlag)).take 15).length ≤ 15 :=
    (List.length_take _ _).le.trans (min_le_left _ _)
  have h2 : ((comparisons.filter (fun c => c.matchFlag)).take 5).length ≤ 5 :=
    (List.length_take _ _).le.trans (min_le_left _ _)
  have hlen : ((comparisons.filter (fun c => !c.matchFlag)).take 15 ++
      (comparisons.filter (fun c => c.matchFlag)).take 5).length ≤ 20 := by
    rw [List.length_append]; omega
  constructor
  · unfold previewOf
    exact List.take_of_length_le hlen
  · unfold previewOf
    exact (List.length_take _ _).le.trans (min_le_left _ _)

/-- C5: the effective quota is the participant-specific override when
set, otherwise the global default (fifteen when not configured), and any
request whose current submission count has reached that quota fails with
the quota-exceeded error before any comparison or persistence. -/
theorem quota_enforced :
    (∀ n configLimit, effectiveUploadLimit (some n) configLimit = n) ∧
    (∀ v, effectiveUploadLimit none (some v) = v) ∧
    (∀ (answerData : List Row) (count : Nat) (userLimit configLimit : Option Nat)
      (rows : List Row),
      effectiveUploadLimit userLimit configLimit ≤ count →
      uploadPipeline (some answerData) count userLimit configLimit rows =
        .error .quotaExceeded) := by
  refine ⟨fun n c => rfl, fun v => rfl, fun answerData count uL cL rows h => ?_⟩
  unfold uploadPipeline
  simp [if_pos h]

/-- Witness for the quota theorem at a concrete input: with no override
and no configured default the quota is fifteen, and the sixteenth upload
attempt is rejected. -/
theorem quota_enforced_witness :
    uploadPipeline (some [⟨"1", "A"⟩]) 15 none none [⟨"1", "A"⟩] =
      .error .quotaExceeded :=
  quota_enforced.2.2 [⟨"1", "A"⟩] 15 none none [⟨"1", "A"⟩] (by decide)

/-- C4: under the interleaving in which both requests read the count
before either saves, both persisted submissions get attempt number
`N + 1` (here `N = 0`): the attempt numbers are duplicated, not
`{N + 1, N + 2}`. -/
theorem concurrent_attempt_numbers_duplicated :
    (raceRun (raceInit 0) [.read1, .read2, .save1, .save2]).persisted = [1, 1] ∧
    ¬ (raceRun (raceInit 0) [.read1, .read2, .save1, .save2]).persisted.Nodup := by
  constructor
  · rfl
  · decide

theorem lastLabel_nil (k : String) : lastLabel [] k = none := rfl

theorem lastLabel_cons (r : Row) (rs : List Row) (k : String) :
    lastLabel (r :: rs) k =
      match lastLabel rs k with
      | some v => some v
      | none => if r.row_id == k then some r.label else none := by
  unfold lastLabel
  rw [List.reverse_cons, List.find?_append]
  cases h : rs.reverse.find? (fun r => r.row_id == k) with
  | none =>
    simp only [h, Option.map_none', Option.none_orElse]
    by_cases hk : r.row_id == k
    · simp [List.find?, hk]
    · simp [List.find?, hk]
  | some v => simp [h]

theorem foldl_setMap_apply (rows : List Row) (m : String → Option String) (k : String) :
    rows.foldl (fun m r => fun k => if k = r.row_id then some r.label else m k) m k =
      match lastLabel rows k with
      | some v => some v
      | none => m k := by
  induction rows generalizing m with
  | nil => simp [lastLabel_nil]
  | cons r rs ih =>
    rw [List.foldl_cons, ih, lastLabel_cons]
    cases h : lastLabel rs k with
    | some v => rfl
    | none =>
      by_cases hk : r.row_id = k
      · simp [hk]
      · have hk2 : ¬ k = r.row_id := fun h2 => hk h2.symm
        simp [hk, hk2]

/-- `buildMap` looks up the label of the last occurrence of the key. -/
theorem buildMap_eq_lastLabel (rows : List Row) (k : String) :
    buildMap rows k = lastLabel rows k := by
  unfold buildMap
  rw [foldl_setMap_apply]
  cases h : lastLabel rows k <;> rfl

theorem lastLabel_append (a b : List Row) (k : String) :
    lastLabel (a ++ b) k =
      match lastLabel b k with
      | some v => some v
      | none => lastLabel a k := by
  unfold lastLabel
  rw [List.reverse_append, List.find?_append]
  cases h : b.reverse.find? (fun r => r.row_id == k) with
  | none => simp [h]
  | some v => simp [h]

theorem lastLabel_eq_none_iff (rows : List Row) (k : String) :
    lastLabel rows k = none ↔ ∀ r ∈ rows, ¬ (r.row_id == k) := by
  unfold lastLabel
  rw [Option.map_eq_none']
  rw [List.find?_eq_none]
  constructor
  · intro h r hr
    exact h r (List.mem_reverse.mpr hr)
  · intro h r hr
    exact h r (List.mem_reverse.mp hr)

theorem lastLabel_filter_ne (rows : List Row) (rid k : String) (hk : ¬ (rid == k) = true) :
    lastLabel (rows.filter (fun x => !(x.row_id == rid))) k = lastLabel rows k := by
  induction rows with
  | nil => rfl
  | cons r rs ih =>
    by_cases hr : (r.row_id == rid) = true
    · have hrk : ¬ (r.row_id == k) = true := by
        intro h
        exact hk (beq_iff_eq.mpr ((eq_of_beq hr).symm.trans (eq_of_beq h)))
      rw [List.filter_cons_of_neg (by simp [hr]), ih, lastLabel_cons]
      cases h : lastLabel rs k with
      | some v => rfl
      | none => simp [hrk]
    · rw [List.filter_cons_of_pos (by simp [hr]), lastLabel_cons, lastLabel_cons, ih]

/-- Shared characterization: the emitted comparison list is the
canonical list joined through the last-occurrence lookup. -/
theorem compareCSVData_comparisons (user answer : List Row) :
    (compareCSVData user answer).comparisons = answer.filterMap (lastJoin user) := by
  show answer.filterMap _ = answer.filterMap _
  have hf : (fun (answerRow : Row) =>
      match buildMap user answerRow.row_id with
      | some predicted =>
          some { row_id := answerRow.row_id, predicted := predicted,
                 actual := answerRow.label,
                 matchFlag := predicted == answerRow.label }
      | none => (none : Option Comparison)) = lastJoin user := by
    funext a
    unfold lastJoin
    rw [buildMap_eq_lastLabel]
  rw [hf]

/-- C9: the comparison join uses, for each canonical row whose identifier
occurs in the submission, the label of the last occurrence of that
identifier in submission order; consequently deleting the earlier
duplicate occurrences of an identifier changes no emitted comparison
triple. -/
theorem comparisons_last_write_wins :
    (∀ (user answer : List Row),
      (compareCSVData user answer).comparisons = answer.filterMap (lastJoin user)) ∧
    (∀ (u1 : List Row) (r : Row) (u2 answer : List Row),
      (compareCSVData (u1 ++ [r] ++ u2) answer).comparisons =
        (compareCSVData (u1.filter (fun x => !(x.row_id == r.row_id)) ++ [r] ++ u2)
          answer).comparisons) := by
  refine ⟨compareCSVData_comparisons, fun u1 r u2 answer => ?_⟩
  rw [compareCSVData_comparisons, compareCSVData_comparisons]
  have hl : ∀ k, lastLabel (u1 ++ [r] ++ u2) k =
      lastLabel (u1.filter (fun x => !(x.row_id == r.row_id)) ++ [r] ++ u2) k := by
    intro k
    rw [List.append_assoc u1 [r] u2,
      List.append_assoc (u1.filter (fun x => !(x.row_id == r.row_id))) [r] u2,
      lastLabel_append u1 ([r] ++ u2) k,
      lastLabel_append (u1.filter (fun x => !(x.row_id == r.row_id))) ([r] ++ u2) k]
    cases h : lastLabel ([r] ++ u2) k with
    | some v => rfl
    | none =>
      have hk : ¬ (r.row_id == k) = true :=
        (lastLabel_eq_none_iff _ _).mp h r (by simp)
      rw [lastLabel_filter_ne u1 r.row_id k hk]
  have hf2 : lastJoin (u1 ++ [r] ++ u2) =
      lastJoin (u1.filter (fun x => !(x.row_id == r.row_id)) ++ [r] ++ u2) := by
    funext a
    unfold lastJoin
    rw [hl a.row_id]
  rw [hf2]

theorem length_filterMap_eq_countP {α β : Type} (f : α → Option β) (l : List α) :
    (l.filterMap f).length = l.countP (fun a => (f a).isSome) := by
  induction l with
  | nil => rfl
  | cons x xs ih =>
    cases h : f x with
    | none => simp [List.filterMap_cons, List.countP_cons, h, ih]
    | some b => simp [List.filterMap_cons, List.countP_cons, h, ih]

theorem buildMap_isSome_iff (rows : List Row) (k : String) :
    (buildMap rows k).isSome = true ↔ k ∈ rows.map Row.row_id := by
  rw [buildMap_eq_lastLabel]
  unfold lastLabel
  simp

theorem buildMap_isSome_decide (rows : List Row) (id : String) :
    (buildMap rows id).isSome = decide (id ∈ rows.map Row.row_id) := by
  by_cases hm : id ∈ rows.map Row.row_id
  · rw [(buildMap_isSome_iff rows id).mpr hm]
    simp [hm]
  · have h2 : ¬ (buildMap rows id).isSome = true :=
      fun h => hm ((buildMap_isSome_iff rows id).mp h)
    rw [Bool.not_eq_true] at h2
    rw [h2]
    simp [hm]

theorem lastJoin_isSome (user : List Row) (a : Row) :
    (lastJoin user a).isSome = (buildMap user a.row_id).isSome := by
  unfold lastJoin
  rw [buildMap_eq_lastLabel]
  cases lastLabel user a.row_id <;> rfl

theorem isSome_if_bool {β : Type} (b : Bool) (x : β) :
    (if b then (none : Option β) else some x).isSome = !b := by
  cases b <;> simp

theorem countP_mem_eq_inter_card (A B : List String) (hA : A.Nodup) :
    A.countP (fun id => decide (id ∈ B)) = (A.toFinset ∩ B.toFinset).card := by
  rw [← Finset.filter_mem_eq_inter]
  have h1 : A.toFinset.filter (· ∈ B.toFinset) =
      (A.filter (fun id => decide (id ∈ B))).toFinset := by
    ext x
    simp [List.mem_toFinset, List.mem_filter]
  rw [h1, List.toFinset_card_of_nodup (hA.filter _), List.countP_eq_length_filter]

theorem countP_not_mem_eq_sdiff_card (A B : List String) (hA : A.Nodup) :
    A.countP (fun id => !decide (id ∈ B)) = (A.toFinset \ B.toFinset).card := by
  rw [Finset.sdiff_eq_filter]
  have h1 : A.toFinset.filter (· ∉ B.toFinset) =
      (A.filter (fun id => !decide (id ∈ B))).toFinset := by
    ext x
    simp [List.mem_toFinset, List.mem_filter]
  rw [h1, List.toFinset_card_of_nodup (hA.filter _), List.countP_eq_length_filter]

/-- C3 (amended): when the identifiers within the canonical list and
within the submission list are each pairwise distinct, `rowsCompared`,
`missingRows` and `extraRows` are the cardinalities of the identifier
intersection and the two set differences. -/
theorem compare_counts_eq_set_cards (user answer : List Row)
    (ha : (answer.map Row.row_id).Nodup) (hu : (user.map Row.row_id).Nodup) :
    (compareCSVData user answer).rowsCompared =
      ((answer.map Row.row_id).toFinset ∩ (user.map Row.row_id).toFinset).card ∧
    (compareCSVData user answer).missingRows =
      ((answer.map Row.row_id).toFinset \ (user.map Row.row_id).toFinset).card ∧
    (compareCSVData user answer).extraRows =
      ((user.map Row.row_id).toFinset \ (answer.map Row.row_id).toFinset).card := by
  refine ⟨?_, ?_, ?_⟩
  · have h0 : (compareCSVData user answer).rowsCompared =
        (compareCSVData user answer).comparisons.length := rfl
    rw [h0, compareCSVData_comparisons, length_filterMap_eq_countP]
    have hf : (fun (a : Row) => (lastJoin user a).isSome) =
        (fun a => decide (a.row_id ∈ user.map Row.row_id)) := by
      funext a
      rw [lastJoin_isSome, buildMap_isSome_decide]
    rw [hf]
    have hcm : answer.countP (fun a => decide (a.row_id ∈ user.map Row.row_id)) =
        (answer.map Row.row_id).countP
          (fun id => decide (id ∈ user.map Row.row_id)) := by
      rw [List.countP_map]
      rfl
    rw [hcm, countP_mem_eq_inter_card _ _ ha]
  · show (answer.filterMap _).length = _
    rw [length_filterMap_eq_countP]
    have hf : (fun (a : Row) =>
        (if (buildMap user a.row_id).isSome then (none : Option String)
          else some a.row_id).isSome) =
        (fun a => !decide (a.row_id ∈ user.map Row.row_id)) := by
      funext a
      rw [isSome_if_bool, buildMap_isSome_decide]
    rw [hf]
    have hcm : answer.countP (fun a => !decide (a.row_id ∈ user.map Row.row_id)) =
        (answer.map Row.row_id).countP
          (fun id => !decide (id ∈ user.map Row.row_id)) := by
      rw [List.countP_map]
      rfl
    rw [hcm, countP_not_mem_eq_sdiff_card _ _ ha]
  · show (user.filterMap _).length = _
    rw [length_filterMap_eq_countP]
    have hf : (fun (a : Row) =>
        (if (buildMap answer a.row_id).isSome then (none : Option String)
          else some a.row_id).isSome) =
        (fun a => !decide (a.row_id ∈ answer.map Row.row_id)) := by
      funext a
      rw [isSome_if_bool, buildMap_isSome_decide]
    rw [hf]
    have hcm : user.countP (fun a => !decide (a.row_id ∈ answer.map Row.row_id)) =
        (user.map Row.row_id).countP
          (fun id => !decide (id ∈ answer.map Row.row_id)) := by
      rw [List.countP_map]
      rfl
    rw [hcm, countP_not_mem_eq_sdiff_card _ _ hu]

/-- Witness for the count theorem at a concrete input: canonical rows
with ids 1 and 2, submission with ids 2 and 3. -/
theorem compare_counts_eq_set_cards_witness :
    (compareCSVData [⟨"2", "B"⟩, ⟨"3", "C"⟩] [⟨"1", "A"⟩, ⟨"2", "B"⟩]).rowsCompared =
      ((([⟨"1", "A"⟩, ⟨"2", "B"⟩] : List Row).map Row.row_id).toFinset ∩
        (([⟨"2", "B"⟩, ⟨"3", "C"⟩] : List Row).map Row.row_id).toFinset).card ∧
    (compareCSVData [⟨"2", "B"⟩, ⟨"3", "C"⟩] [⟨"1", "A"⟩, ⟨"2", "B"⟩]).missingRows =
      ((([⟨"1", "A"⟩, ⟨"2", "B"⟩] : List Row).map Row.row_id).toFinset \
        (([⟨"2", "B"⟩, ⟨"3", "C"⟩] : List Row).map Row.row_id).toFinset).card ∧
    (compareCSVData [⟨"2", "B"⟩, ⟨"3", "C"⟩] [⟨"1", "A"⟩, ⟨"2", "B"⟩]).extraRows =
      ((([⟨"2", "B"⟩, ⟨"3", "C"⟩] : List Row).map Row.row_id).toFinset \
        (([⟨"1", "A"⟩, ⟨"2", "B"⟩] : List Row).map Row.row_id).toFinset).card :=
  compare_counts_eq_set_cards [⟨"2", "B"⟩, ⟨"3", "C"⟩] [⟨"1", "A"⟩, ⟨"2", "B"⟩]
    (by decide) (by decide)

/-- C3 counterexample: with a duplicated identifier in the submission,
`extraRows` counts occurrences (2), not distinct identifiers (1), so the
claim fails on arbitrary row lists. -/
theorem extraRows_counterexample :
    (compareCSVData [⟨"5", "A"⟩, ⟨"5", "B"⟩] [⟨"1", "A"⟩]).extraRows = 2 ∧
    ((([⟨"5", "A"⟩, ⟨"5", "B"⟩] : List Row).map Row.row_id).toFinset \
      (([⟨"1", "A"⟩] : List Row).map Row.row_id).toFinset).card = 1 ∧
    (compareCSVData [⟨"5", "A"⟩, ⟨"5", "B"⟩] [⟨"1", "A"⟩]).extraRows ≠
      ((([⟨"5", "A"⟩, ⟨"5", "B"⟩] : List Row).map Row.row_id).toFinset \
        (([⟨"1", "A"⟩] : List Row).map Row.row_id).toFinset).card := by
  refine ⟨by decide, by decide, by decide⟩

theorem computeMetrics_accuracy (l : List Comparison) (h : l.length ≠ 0) :
    (computeMetrics l).accuracy =
      round6 ((l.countP (fun p => p.predicted == p.actual) : ℚ) / (l.length : ℚ)) := by
  unfold computeMetrics
  rw [if_neg h]

theorem computeMetrics_f1 (l : List Comparison) (h : l.length ≠ 0) :
    (computeMetrics l).f1 =
      round6 (if 0 < avgPrecision l + avgRecall l then
        2 * (avgPrecision l * avgRecall l) / (avgPrecision l + avgRecall l)
      else 0) := by
  unfold computeMetrics
  rw [if_neg h]

theorem round6_zero : round6 0 = 0 := by
  unfold round6
  have h : ⌊(0 : ℚ) * 1000000 + 1 / 2⌋ = 0 := by
    rw [Int.floor_eq_iff]
    norm_num
  rw [h]
  norm_num

theorem round6_one : round6 1 = 1 := by
  unfold round6
  have h : ⌊(1 : ℚ) * 1000000 + 1 / 2⌋ = 1000000 := by
    rw [Int.floor_eq_iff]
    norm_num
  rw [h]
  norm_num

theorem round6_nonneg (q : ℚ) (h : 0 ≤ q) : 0 ≤ round6 q := by
  unfold round6
  have h1 : (0 : ℤ) ≤ ⌊q * 1000000 + 1 / 2⌋ := by
    rw [Int.le_floor]
    push_cast
    nlinarith
  have h2 : (0 : ℚ) ≤ ((⌊q * 1000000 + 1 / 2⌋ : ℤ) : ℚ) := by
    exact_mod_cast h1
  exact div_nonneg h2 (by norm_num)

theorem round6_le_one (q : ℚ) (h : q ≤ 1) : round6 q ≤ 1 := by
  unfold round6
  have hmono : ⌊q * 1000000 + 1 / 2⌋ ≤ ⌊(1000000 : ℚ) + 1 / 2⌋ :=
    Int.floor_le_floor (by nlinarith)
  have hval : ⌊(1000000 : ℚ) + 1 / 2⌋ = 1000000 := by
    rw [Int.floor_eq_iff]
    norm_num
  rw [hval] at hmono
  have h2 : ((⌊q * 1000000 + 1 / 2⌋ : ℤ) : ℚ) ≤ 1000000 := by exact_mod_cast hmono
  exact (div_le_one (by norm_num)).mpr h2

theorem round6_frac_eq_one_iff (m t : Nat) (hm : m ≤ t) (ht : 1 ≤ t)
    (hb : t ≤ 1999999) :
    round6 ((m : ℚ) / (t : ℚ)) = 1 ↔ m = t := by
  have ht0 : (0 : ℚ) < (t : ℚ) := by exact_mod_cast ht
  constructor
  · intro h
    by_contra hne
    have hmt : m < t := lt_of_le_of_ne hm hne
    unfold round6 at h
    have hfl : ((⌊(m : ℚ) / t * 1000000 + 1 / 2⌋ : ℤ) : ℚ) = 1000000 := by
      have h2 := (div_eq_iff (by norm_num : (1000000 : ℚ) ≠ 0)).mp h
      linarith
    have hfl2 : ⌊(m : ℚ) / t * 1000000 + 1 / 2⌋ = 1000000 := by exact_mod_cast hfl
    have hge : (1000000 : ℚ) ≤ (m : ℚ) / t * 1000000 + 1 / 2 := by
      have hle := Int.floor_le ((m : ℚ) / t * 1000000 + 1 / 2)
      rw [hfl2] at hle
      exact_mod_cast hle
    have hge2 : (1 : ℚ) - 1 / 2000000 ≤ (m : ℚ) / t := by linarith
    have hge3 : ((1 : ℚ) - 1 / 2000000) * t ≤ (m : ℚ) := by
      rw [← le_div_iff₀ ht0]
      exact hge2
    have htq : (t : ℚ) ≤ 1999999 := by exact_mod_cast hb
    have hgap : (1 : ℚ) ≤ (t : ℚ) - (m : ℚ) := by
      have hsucc : ((m + 1 : ℕ) : ℚ) ≤ (t : ℚ) := by exact_mod_cast hmt
      push_cast at hsucc
      linarith
    linarith
  · intro h
    subst h
    rw [div_self (ne_of_gt ht0)]
    exact round6_one

theorem round6_frac_eq_zero_iff (m t : Nat) (hm : m ≤ t) (ht : 1 ≤ t)
    (hb : t ≤ 1999999) :
    round6 ((m : ℚ) / (t : ℚ)) = 0 ↔ m = 0 := by
  have ht0 : (0 : ℚ) < (t : ℚ) := by exact_mod_cast ht
  constructor
  · intro h
    by_contra hne
    have hm1 : 1 ≤ m := Nat.one_le_iff_ne_zero.mpr hne
    unfold round6 at h
    have hfl : ((⌊(m : ℚ) / t * 1000000 + 1 / 2⌋ : ℤ) : ℚ) = 0 := by
      rcases div_eq_zero_iff.mp h with h1 | h1
      · exact h1
      · norm_num at h1
    have hfl2 : ⌊(m : ℚ) / t * 1000000 + 1 / 2⌋ = 0 := by exact_mod_cast hfl
    have hlt : (m : ℚ) / t * 1000000 + 1 / 2 < 1 := by
      have hlf := Int.lt_floor_add_one ((m : ℚ) / t * 1000000 + 1 / 2)
      rw [hfl2] at hlf
      push_cast at hlf
      linarith
    have hlt2 : (m : ℚ) / t < 1 / 2000000 := by linarith
    have hlt3 : (m : ℚ) < (1 / 2000000) * t := by
      rw [div_lt_iff₀ ht0] at hlt2
      linarith
    have htq : (t : ℚ) ≤ 1999999 := by exact_mod_cast hb
    have hm1q : (1 : ℚ) ≤ (m : ℚ) := by exact_mod_cast hm1
    linarith
  · intro h
    subst h
    rw [Nat.cast_zero, zero_div]
    exact round6_zero

theorem countP_replicate {α : Type} (p : α → Bool) (n : Nat) (a : α) :
    (List.replicate n a).countP p = if p a then n else 0 := by
  induction n with
  | zero => simp
  | succ k ih =>
    rw [List.replicate_succ, List.countP_cons, ih]
    cases h : p a <;> simp [h]

/-- C6 (amended): for non-empty comparison sequences of fewer than two
million triples, the returned accuracy lies in the unit interval, equals
one exactly when every compared row matches, and equals zero exactly when
no compared row matches. The length bound is forced by the six-decimal
rounding of the returned value. -/
theorem accuracy_bounds_and_extremes (l : List Comparison) (h0 : l ≠ [])
    (hlen : l.length ≤ 1999999) :
    (0 ≤ (computeMetrics l).accuracy ∧ (computeMetrics l).accuracy ≤ 1) ∧
    ((computeMetrics l).accuracy = 1 ↔ ∀ c ∈ l, c.predicted = c.actual) ∧
    ((computeMetrics l).accuracy = 0 ↔ ∀ c ∈ l, c.predicted ≠ c.actual) := by
  have hne : l.length ≠ 0 := fun hl => h0 (List.length_eq_zero.mp hl)
  have hm : l.countP (fun p => p.predicted == p.actual) ≤ l.length :=
    List.countP_le_length _
  have ht : 1 ≤ l.length := Nat.one_le_iff_ne_zero.mpr hne
  have ht0 : (0 : ℚ) < (l.length : ℚ) := by exact_mod_cast ht
  rw [computeMetrics_accuracy l hne]
  refine ⟨⟨?_, ?_⟩, ?_, ?_⟩
  · exact round6_nonneg _ (div_nonneg (Nat.cast_nonneg _) (Nat.cast_nonneg _))
  · exact round6_le_one _ ((div_le_one ht0).mpr (by exact_mod_cast hm))
  · rw [round6_frac_eq_one_iff _ _ hm ht hlen, List.countP_eq_length]
    constructor
    · intro hall c hc
      exact eq_of_beq (by simpa using hall c hc)
    · intro hall c hc
      simpa using beq_iff_eq.mpr (hall c hc)
  · rw [round6_frac_eq_zero_iff _ _ hm ht hlen, List.countP_eq_zero]
    constructor
    · intro hall c hc hcontra
      exact hall c hc (by simpa using beq_iff_eq.mpr hcontra)
    · intro hall c hc hbeq
      exact hall c hc (eq_of_beq (by simpa using hbeq))

/-- Witness for the accuracy theorem at a concrete one-row input. -/
theorem accuracy_bounds_and_extremes_witness :
    (0 ≤ (computeMetrics [⟨"1", "A", "A", true⟩]).accuracy ∧
      (computeMetrics [⟨"1", "A", "A", true⟩]).accuracy ≤ 1) ∧
    ((computeMetrics [⟨"1", "A", "A", true⟩]).accuracy = 1 ↔
      ∀ c ∈ [(⟨"1", "A", "A", true⟩ : Comparison)], c.predicted = c.actual) ∧
    ((computeMetrics [⟨"1", "A", "A", true⟩]).accuracy = 0 ↔
      ∀ c ∈ [(⟨"1", "A", "A", true⟩ : Comparison)], c.predicted ≠ c.actual) :=
  accuracy_bounds_and_extremes [⟨"1", "A", "A", true⟩] (by decide) (by decide)

/-- C6 counterexample: on four million triples of which one mismatches,
the six-decimal rounding returns accuracy exactly 1 although not every
compared row matches, so the stated equivalence fails on unbounded
inputs. -/
theorem accuracy_one_with_mismatch :
    (computeMetrics (List.replicate 3999999 (⟨"1", "A", "A", true⟩ : Comparison) ++
        [⟨"2", "A", "B", false⟩])).accuracy = 1 ∧
    ∃ c ∈ List.replicate 3999999 (⟨"1", "A", "A", true⟩ : Comparison) ++
        [⟨"2", "A", "B", false⟩], c.predicted ≠ c.actual := by
  have hlen : (List.replicate 3999999 (⟨"1", "A", "A", true⟩ : Comparison) ++
      [(⟨"2", "A", "B", false⟩ : Comparison)]).length = 4000000 := by
    rw [List.length_append, List.length_replicate, List.length_singleton]
  have hcount : (List.replicate 3999999 (⟨"1", "A", "A", true⟩ : Comparison) ++
      [(⟨"2", "A", "B", false⟩ : Comparison)]).countP
        (fun p => p.predicted == p.actual) = 3999999 := by
    rw [List.countP_append, countP_replicate]
    decide
  constructor
  · rw [computeMetrics_accuracy _ (by rw [hlen]; norm_num), hcount, hlen]
    have hcast : ((3999999 : ℕ) : ℚ) / ((4000000 : ℕ) : ℚ) =
        (3999999 : ℚ) / 4000000 := by push_cast; rfl
    rw [hcast]
    unfold round6
    have harg : (3999999 : ℚ) / 4000000 * 1000000 + 1 / 2 = 4000001 / 4 := by
      norm_num
    rw [harg]
    have hfl : ⌊(4000001 : ℚ) / 4⌋ = 1000000 := by
      rw [Int.floor_eq_iff]
      norm_num
    rw [hfl]
    norm_num
  · exact ⟨⟨"2", "A", "B", false⟩,
      List.mem_append_right _ (List.mem_singleton_self _), by decide⟩

theorem precisionsOf_nonneg (l : List Comparison) : ∀ x ∈ precisionsOf l, 0 ≤ x := by
  intro x hx
  rcases List.mem_map.mp hx with ⟨lab, _, rfl⟩
  split_ifs with h
  · exact div_nonneg (Nat.cast_nonneg _) (by positivity)
  · exact le_refl 0

theorem recallsOf_nonneg (l : List Comparison) : ∀ x ∈ recallsOf l, 0 ≤ x := by
  intro x hx
  rcases List.mem_map.mp hx with ⟨lab, _, rfl⟩
  split_ifs with h
  · exact div_nonneg (Nat.cast_nonneg _) (by positivity)
  · exact le_refl 0

theorem avgPrecision_nonneg (l : List Comparison) : 0 ≤ avgPrecision l :=
  div_nonneg (List.sum_nonneg (precisionsOf_nonneg l)) (Nat.cast_nonneg _)

theorem avgRecall_nonneg (l : List Comparison) : 0 ≤ avgRecall l :=
  div_nonneg (List.sum_nonneg (recallsOf_nonneg l)) (Nat.cast_nonneg _)

/-- C7: for non-empty comparison sequences the returned f1 is the
six-decimal rounding of `2pr/(p+r)` over the macro precision `p` and
macro recall `r` whenever `p + r` is nonzero, and is exactly the defined
number zero when both are zero (the embedding is total, so no undefined
or NaN value can be produced). -/
theorem f1_harmonic_or_zero (l : List Comparison) (h : l ≠ []) :
    (avgPrecision l + avgRecall l ≠ 0 →
      (computeMetrics l).f1 =
        round6 (2 * (avgPrecision l * avgRecall l) / (avgPrecision l + avgRecall l))) ∧
    (avgPrecision l = 0 ∧ avgRecall l = 0 → (computeMetrics l).f1 = 0) := by
  have hne : l.length ≠ 0 := fun hl => h (List.length_eq_zero.mp hl)
  constructor
  · intro hsum
    have hpos : 0 < avgPrecision l + avgRecall l :=
      lt_of_le_of_ne (add_nonneg (avgPrecision_nonneg l) (avgRecall_nonneg l))
        (Ne.symm hsum)
    rw [computeMetrics_f1 l hne, if_pos hpos]
  · rintro ⟨hp, hr⟩
    rw [computeMetrics_f1 l hne, if_neg (by rw [hp, hr]; norm_num)]
    exact round6_zero

/-- Witness for the f1 theorem at a concrete one-row input on which both
macro precision and macro recall are zero. -/
theorem f1_harmonic_or_zero_witness :
    (avgPrecision [⟨"1", "A", "B", false⟩] + avgRecall [⟨"1", "A", "B", false⟩] ≠ 0 →
      (computeMetrics [⟨"1", "A", "B", false⟩]).f1 =
        round6 (2 * (avgPrecision [⟨"1", "A", "B", false⟩] *
            avgRecall [⟨"1", "A", "B", false⟩]) /
          (avgPrecision [⟨"1", "A", "B", false⟩] +
            avgRecall [⟨"1", "A", "B", false⟩]))) ∧
    (avgPrecision [⟨"1", "A", "B", false⟩] = 0 ∧
        avgRecall [⟨"1", "A", "B", false⟩] = 0 →
      (computeMetrics [⟨"1", "A", "B", false⟩]).f1 = 0) :=
  f1_harmonic_or_zero [⟨"1", "A", "B", false⟩] (by decide)

/-- C1: an upload whose submission shares no identifier with the
canonical set is not rejected: the pipeline persists a submission record
with `rowsCompared = 0` and all-zero metrics and reports success, instead
of failing with a distinct no-overlapping-rows error. -/
theorem no_overlap_not_rejected :
    ∃ rec : SubmissionRec,
      uploadPipeline (some [⟨"1", "A"⟩]) 0 none none [⟨"2", "B"⟩] = .ok rec ∧
      rec.rowsCompared = 0 ∧ rec.accuracy = 0 ∧ rec.attemptNumber = 1 := by
  refine ⟨_, rfl, ?_, ?_, ?_⟩ <;> rfl

theorem subSortLt_trans {a b c : Subm} (h1 : subSortLt a b) (h2 : subSortLt b c) :
    subSortLt a c := by
  unfold subSortLt at *
  rcases h1 with h1 | ⟨h1e, h1f⟩ <;> rcases h2 with h2 | ⟨h2e, h2f⟩
  · left
    exact lt_trans h2 h1
  · left
    rw [← h2e]
    exact h1
  · left
    rw [h1e]
    exact h2
  · right
    exact ⟨h1e.trans h2e, lt_trans h2f h1f⟩

theorem fullLt_trans {a b c : Subm} (h1 : fullLt a b) (h2 : fullLt b c) :
    fullLt a c := by
  unfold fullLt at *
  rcases h1 with h1 | ⟨h1a, h1f, h1n⟩ <;> rcases h2 with h2 | ⟨h2a, h2f, h2n⟩
  · left
    exact subSortLt_trans h1 h2
  · left
    unfold subSortLt at *
    rcases h1 with h | ⟨ha, hf⟩
    · left
      rw [← h2a]
      exact h
    · right
      refine ⟨ha.trans h2a, ?_⟩
      rw [← h2f]
      exact hf
  · left
    unfold subSortLt at *
    rcases h2 with h | ⟨ha, hf⟩
    · left
      rw [h1a]
      exact h
    · right
      refine ⟨h1a.trans ha, ?_⟩
      rw [h1f]
      exact hf
  · right
    exact ⟨h1a.trans h2a, h1f.trans h2f, lt_trans h1n h2n⟩

theorem subSortLt_of_not_le {x y : Subm} (h : ¬ subSortLe x y) : subSortLt y x := by
  unfold subSortLe at h
  unfold subSortLt
  push_neg at h
  obtain ⟨h1, h2⟩ := h
  rcases lt_trichotomy x.accuracy y.accuracy with hlt | heq | hgt
  · left
    exact hlt
  · right
    exact ⟨heq.symm, h2 heq⟩
  · exact absurd hgt (not_lt.mpr h1)

theorem tie_of_le_not_lt {x y : Subm} (hle : subSortLe x y) (hnlt : ¬ subSortLt x y) :
    x.accuracy = y.accuracy ∧ x.f1 = y.f1 := by
  unfold subSortLe at hle
  unfold subSortLt at hnlt
  push_neg at hnlt
  obtain ⟨h1, h2⟩ := hnlt
  rcases hle with h | ⟨ha, hf⟩
  · exact absurd h (not_lt.mpr h1)
  · exact ⟨ha, le_antisymm (h2 ha) hf⟩

theorem firstBest_mem_and_sat (p : Subm → Bool) (l : List Subm) :
    ∀ y, firstBest p l = some y → y ∈ l ∧ p y = true := by
  induction l with
  | nil =>
    intro y hy
    simp [firstBest] at hy
  | cons x xs ih =>
    intro y hy
    simp only [firstBest] at hy
    cases hb : firstBest p xs with
    | none =>
      rw [hb] at hy
      dsimp only at hy
      by_cases hpx : p x = true
      · rw [if_pos hpx] at hy
        injection hy with hy
        subst hy
        exact ⟨List.mem_cons_self _ _, hpx⟩
      · rw [if_neg hpx] at hy
        cases hy
    | some z =>
      rw [hb] at hy
      dsimp only at hy
      obtain ⟨hz, hpz⟩ := ih z hb
      by_cases hpx : p x = true
      · rw [if_pos hpx] at hy
        by_cases hxz : subSortLe x z
        · rw [if_pos hxz] at hy
          injection hy with hy
          subst hy
          exact ⟨List.mem_cons_self _ _, hpx⟩
        · rw [if_neg hxz] at hy
          injection hy with hy
          subst hy
          exact ⟨List.mem_cons_of_mem _ hz, hpz⟩
      · rw [if_neg hpx] at hy
        injection hy with hy
        subst hy
        exact ⟨List.mem_cons_of_mem _ hz, hpz⟩

theorem firstBest_eq_none_iff (p : Subm → Bool) (l : List Subm) :
    firstBest p l = none ↔ ∀ x ∈ l, ¬ p x = true := by
  induction l with
  | nil => simp [firstBest]
  | cons x xs ih =>
    simp only [firstBest]
    constructor
    · intro h
      cases hb : firstBest p xs with
      | none =>
        rw [hb] at h
        dsimp only at h
        by_cases hpx : p x = true
        · rw [if_pos hpx] at h
          cases h
        · intro t ht
          rcases List.mem_cons.mp ht with rfl | htxs
          · exact hpx
          · exact ih.mp hb t htxs
      | some y =>
        rw [hb] at h
        dsimp only at h
        exfalso
        by_cases hpx : p x = true
        · rw [if_pos hpx] at h
          by_cases hxy : subSortLe x y
          · rw [if_pos hxy] at h
            cases h
          · rw [if_neg hxy] at h
            cases h
        · rw [if_neg hpx] at h
          cases h
    · intro h
      cases hb : firstBest p xs with
      | none =>
        dsimp only
        rw [if_neg (h x (List.mem_cons_self _ _))]
      | some y =>
        exfalso
        obtain ⟨hy, hpy⟩ := firstBest_mem_and_sat p xs y hb
        exact h y (List.mem_cons_of_mem _ hy) hpy

theorem find?_orderedInsert (p : Subm → Bool) (x : Subm) (l : List Subm) :
    l.Sorted subSortLe →
    (List.orderedInsert subSortLe x l).find? p =
      match l.find? p with
      | none => if p x then some x else none
      | some y =>
        if p x then (if subSortLe x y then some x else some y) else some y := by
  induction l with
  | nil =>
    intro _
    simp only [List.orderedInsert, List.find?]
    cases hpx : p x <;> rfl
  | cons b bs ih =>
    intro hl
    have hbbs : ∀ y ∈ bs, subSortLe b y := (List.sorted_cons.mp hl).1
    have hbs : bs.Sorted subSortLe := (List.sorted_cons.mp hl).2
    simp only [List.orderedInsert]
    by_cases hxb : subSortLe x b
    · rw [if_pos hxb]
      cases hpx : p x with
      | true =>
        cases hfy : (b :: bs).find? p with
        | none => simp [List.find?, hpx, hfy]
        | some y =>
          have hy : subSortLe x y := by
            have hmem := List.mem_of_find?_eq_some hfy
            rcases List.mem_cons.mp hmem with rfl | hyb
            · exact hxb
            · exact Trans.trans hxb (hbbs y hyb)
          simp [List.find?, hpx, hfy, hy]
      | false =>
        have hneg : ¬ p x = true := by simp [hpx]
        rw [List.find?_cons_of_neg _ hneg]
        cases hfy : (b :: bs).find? p with
        | none => simp
        | some y => simp
    · rw [if_neg hxb]
      cases hpb : p b with
      | true => simp [List.find?, hpb, hxb]
      | false =>
        simp only [List.find?, hpb]
        exact ih hbs

theorem find?_insertionSort (p : Subm → Bool) (l : List Subm) :
    (List.insertionSort subSortLe l).find? p = firstBest p l := by
  induction l with
  | nil => rfl
  | cons x xs ih =>
    simp only [List.insertionSort]
    rw [find?_orderedInsert p x _ (List.sorted_insertionSort subSortLe xs), ih]
    rfl

theorem firstBest_spec (u : Nat) (l : List Subm) :
    attemptsOrdered l → ∀ m, firstBest (fun s => s.userId == u) l = some m →
      m ∈ l ∧ m.userId = u ∧ ∀ t ∈ l, t.userId = u → t = m ∨ fullLt m t := by
  induction l with
  | nil =>
    intro _ m hm
    simp [firstBest] at hm
  | cons x xs ih =>
    intro hwf m hm
    have hwfx : ∀ t ∈ xs, x.userId = t.userId → x.attemptNumber < t.attemptNumber :=
      (List.pairwise_cons.mp hwf).1
    have hwfxs : attemptsOrdered xs := (List.pairwise_cons.mp hwf).2
    simp only [firstBest] at hm
    cases hb : firstBest (fun s => s.userId == u) xs with
    | none =>
      rw [hb] at hm
      dsimp only at hm
      have hnone : ∀ t ∈ xs, ¬ (t.userId == u) = true :=
        (firstBest_eq_none_iff _ _).mp hb
      by_cases hpx : (x.userId == u) = true
      · rw [if_pos hpx] at hm
        injection hm with hm
        subst hm
        refine ⟨List.mem_cons_self _ _, eq_of_beq hpx, ?_⟩
        intro t ht htu
        rcases List.mem_cons.mp ht with rfl | htxs
        · left
          rfl
        · exact absurd (beq_iff_eq.mpr htu) (hnone t htxs)
      · rw [if_neg hpx] at hm
        cases hm
    | some y =>
      rw [hb] at hm
      dsimp only at hm
      obtain ⟨hyxs, hyu, hybest⟩ := ih hwfxs y hb
      by_cases hpx : (x.userId == u) = true
      · rw [if_pos hpx] at hm
        by_cases hxy : subSortLe x y
        · rw [if_pos hxy] at hm
          injection hm with hm
          subst hm
          have hxyfull : fullLt x y := by
            by_cases hlt : subSortLt x y
            · exact Or.inl hlt
            · obtain ⟨ha, hf⟩ := tie_of_le_not_lt hxy hlt
              exact Or.inr ⟨ha, hf, hwfx y hyxs (by rw [eq_of_beq hpx, hyu])⟩
          refine ⟨List.mem_cons_self _ _, eq_of_beq hpx, ?_⟩
          intro t ht htu
          rcases List.mem_cons.mp ht with rfl | htxs
          · left
            rfl
          · rcases hybest t htxs htu with rfl | hyt
            · right
              exact hxyfull
            · right
              exact fullLt_trans hxyfull hyt
        · rw [if_neg hxy] at hm
          injection hm with hm
          subst hm
          refine ⟨List.mem_cons_of_mem _ hyxs, hyu, ?_⟩
          intro t ht htu
          rcases List.mem_cons.mp ht with rfl | htxs
          · right
            exact Or.inl (subSortLt_of_not_le hxy)
          · exact hybest t htxs htu
      · rw [if_neg hpx] at hm
        injection hm with hm
        subst hm
        refine ⟨List.mem_cons_of_mem _ hyxs, hyu, ?_⟩
        intro t ht htu
        rcases List.mem_cons.mp ht with rfl | htxs
        · exact absurd (beq_iff_eq.mpr htu) hpx
        · exact hybest t htxs htu

theorem groupFirstGo_find (seen : List Nat) (l : List Subm) :
    ∀ g ∈ groupFirstGo seen l,
      g.userId ∉ seen ∧ l.find? (fun s => s.userId == g.userId) = some g := by
  induction l generalizing seen with
  | nil =>
    intro g hg
    simp [groupFirstGo] at hg
  | cons x xs ih =>
    intro g hg
    simp only [groupFirstGo] at hg
    by_cases hx : x.userId ∈ seen
    · rw [if_pos hx] at hg
      obtain ⟨hns, hfind⟩ := ih seen g hg
      have hneq : ¬ (x.userId == g.userId) = true :=
        fun hbeq => hns (eq_of_beq hbeq ▸ hx)
      have hf : (x.userId == g.userId) = false := by
        cases hbe : x.userId == g.userId
        · rfl
        · exact absurd hbe hneq
      refine ⟨hns, ?_⟩
      simp [List.find?, hf, hfind]
    · rw [if_neg hx] at hg
      rcases List.mem_cons.mp hg with rfl | hg2
      · refine ⟨hx, ?_⟩
        simp [List.find?]
      · obtain ⟨hns, hfind⟩ := ih (x.userId :: seen) g hg2
        have hneqx : ¬ x.userId = g.userId :=
          fun he => hns (he ▸ List.mem_cons_self _ _)
        have hneq : ¬ (x.userId == g.userId) = true :=
          fun hbeq => hneqx (eq_of_beq hbeq)
        have hf : (x.userId == g.userId) = false := by
          cases hbe : x.userId == g.userId
          · rfl
          · exact absurd hbe hneq
        refine ⟨fun hs => hns (List.mem_cons_of_mem _ hs), ?_⟩
        simp [List.find?, hf, hfind]

theorem enumFrom_shift_map_fst {α : Type} (l : List α) (n : Nat) :
    ((List.enumFrom n l).map (fun pr => (pr.1 + 1, pr.2))).map Prod.fst =
      List.range' (n + 1) l.length := by
  induction l generalizing n with
  | nil => rfl
  | cons x xs ih => simp [List.enumFrom, List.range', ih]

theorem enumFrom_shift_map_snd {α : Type} (l : List α) (n : Nat) :
    ((List.enumFrom n l).map (fun pr => (pr.1 + 1, pr.2))).map Prod.snd = l := by
  induction l generalizing n with
  | nil => rfl
  | cons x xs ih => simp [List.enumFrom, ih]

/-- C2 (amended): for every well-formed persisted submission list (each
participant's submissions appear in increasing attempt order, as the
upload route persists them), every leaderboard entry carries a
submission of that participant that is first under the ordering accuracy
descending, f1 descending, remaining ties by earliest attempt number;
the ranked list is sorted by (accuracy descending, f1 descending), and
rank is the 1-based position in the list. Ties between distinct
participants are not ordered by attempt number. -/
theorem leaderboard_best_selection (subs : List Subm) (limit : Nat)
    (hwf : attemptsOrdered subs) :
    (leaderboardPipeline subs limit).map Prod.fst =
      List.range' 1 (leaderboardPipeline subs limit).length ∧
    List.Sorted subSortLe ((leaderboardPipeline subs limit).map Prod.snd) ∧
    ∀ pr ∈ leaderboardPipeline subs limit,
      pr.2 ∈ subs ∧ ∀ t ∈ subs, t.userId = pr.2.userId → t = pr.2 ∨ fullLt pr.2 t := by
  have hpipe : leaderboardPipeline subs limit =
      ((List.insertionSort subSortLe
          (groupFirst (List.insertionSort subSortLe subs))).take limit).enum.map
        (fun pr => (pr.1 + 1, pr.2)) := rfl
  refine ⟨?_, ?_, ?_⟩
  · rw [hpipe]
    have hlen : (((List.insertionSort subSortLe
        (groupFirst (List.insertionSort subSortLe subs))).take limit).enum.map
          (fun pr => (pr.1 + 1, pr.2))).length =
        ((List.insertionSort subSortLe
          (groupFirst (List.insertionSort subSortLe subs))).take limit).length := by
      rw [List.length_map, List.enum_length]
    rw [hlen]
    exact enumFrom_shift_map_fst _ 0
  · rw [hpipe]
    rw [show ∀ (l : List Subm), l.enum = List.enumFrom 0 l from fun l => rfl]
    rw [enumFrom_shift_map_snd]
    exact List.Pairwise.sublist (List.take_sublist _ _)
      (List.sorted_insertionSort subSortLe _)
  · intro pr hpr
    have hsnd : pr.2 ∈ (List.insertionSort subSortLe
        (groupFirst (List.insertionSort subSortLe subs))).take limit := by
      have h2 : pr.2 ∈ (leaderboardPipeline subs limit).map Prod.snd :=
        List.mem_map_of_mem Prod.snd hpr
      rw [hpipe] at h2
      rw [show ∀ (l : List Subm), l.enum = List.enumFrom 0 l from fun l => rfl] at h2
      rw [enumFrom_shift_map_snd] at h2
      exact h2
    have hranked : pr.2 ∈ List.insertionSort subSortLe
        (groupFirst (List.insertionSort subSortLe subs)) :=
      List.take_subset _ _ hsnd
    have hgrouped : pr.2 ∈ groupFirst (List.insertionSort subSortLe subs) :=
      (List.mem_insertionSort subSortLe).mp hranked
    obtain ⟨-, hfind⟩ :=
      groupFirstGo_find [] (List.insertionSort subSortLe subs) pr.2 hgrouped
    rw [find?_insertionSort] at hfind
    obtain ⟨hmem, -, hbest⟩ := firstBest_spec pr.2.userId subs hwf pr.2 hfind
    exact ⟨hmem, hbest⟩

/-- Witness for the leaderboard theorem at a concrete one-submission
input. -/
theorem leaderboard_best_selection_witness :
    (leaderboardPipeline [⟨0, 1, 1, 1⟩] 50).map Prod.fst =
      List.range' 1 (leaderboardPipeline [⟨0, 1, 1, 1⟩] 50).length ∧
    List.Sorted subSortLe
      ((leaderboardPipeline [⟨0, 1, 1, 1⟩] 50).map Prod.snd) ∧
    ∀ pr ∈ leaderboardPipeline [⟨0, 1, 1, 1⟩] 50,
      pr.2 ∈ [(⟨0, 1, 1, 1⟩ : Subm)] ∧
        ∀ t ∈ [(⟨0, 1, 1, 1⟩ : Subm)], t.userId = pr.2.userId →
          t = pr.2 ∨ fullLt pr.2 t :=
  leaderboard_best_selection [⟨0, 1, 1, 1⟩] 50 (by
    unfold attemptsOrdered
    exact List.pairwise_singleton _ _)

/-- C2 counterexample: participant 0 submits accuracy 0 then a record
scoring (1, 1) as attempt 2; participant 1 then submits an equal (1, 1)
record as attempt 1.
The produced ranking places participant 0's attempt-2 record first
although participant 1's equally-scoring record has the earlier attempt
number, so the ranked list is not sorted by the claimed full ordering. -/
theorem leaderboard_tiebreak_counterexample :
    (leaderboardPipeline
        [⟨0, 0, 0, 1⟩, ⟨0, 1, 1, 2⟩, ⟨1, 1, 1, 1⟩] 50).map
      Prod.snd = [⟨0, 1, 1, 2⟩, ⟨1, 1, 1, 1⟩] ∧
    ¬ List.Sorted fullLe
      ((leaderboardPipeline
        [⟨0, 0, 0, 1⟩, ⟨0, 1, 1, 2⟩, ⟨1, 1, 1, 1⟩] 50).map
          Prod.snd) ∧
    fullLt (⟨1, 1, 1, 1⟩ : Subm) ⟨0, 1, 1, 2⟩ := by
  have h1 : (leaderboardPipeline
      [⟨0, 0, 0, 1⟩, ⟨0, 1, 1, 2⟩, ⟨1, 1, 1, 1⟩] 50).map
        Prod.snd = [⟨0, 1, 1, 2⟩, ⟨1, 1, 1, 1⟩] := by decide
  refine ⟨h1, ?_, by decide⟩
  intro hs
  rw [h1] at hs
  have h2 : fullLe (⟨0, 1, 1, 2⟩ : Subm) ⟨1, 1, 1, 1⟩ :=
    List.rel_of_sorted_cons hs _ (List.mem_singleton_self _)
  revert h2
  decide

end Datathon
